import Mathlib

/-!
Shallow embedding of the pdf_diff_gen sources (src/pdf.rs, src/files.rs)
and verification of the specification's claims about them.

Modelling conventions:
* `f64` values arising in this program are nonnegative dyadic-representable
  quotients of small naturals, or the IEEE special values produced by a
  division by zero; they are modelled by `F64` (an exact rational, `nan`,
  or `inf`).  No `f64` value in the program is ever compared or added, only
  stored, so this exact model is faithful.
* Machine integers (`u16`, `i16`, `usize`) stay well inside their ranges in
  every execution the claims quantify over, and are modelled by `Nat`/`Int`.
* Rendered page bitmaps (`RgbImage`) are modelled by `Img`: a width, a
  height and a pixel function.
-/

/-- IEEE `f64` values reachable in this program: an exact rational value,
or the special values produced by `x / 0.0`. -/
inductive F64 where
  | nan : F64
  | inf : F64
  | val : ℚ → F64
deriving DecidableEq, Repr

/-- Embeds Rust `index as f64 / d as f64` for naturals: division by zero
yields `nan` for a zero numerator (`0.0 / 0.0`) and `inf` otherwise. -/
def natDivF64 (a b : ℕ) : F64 :=
  if b = 0 then (if a = 0 then F64.nan else F64.inf)
  else F64.val ((a : ℚ) / (b : ℚ))

/-- Embeds `image::RgbImage`: dimensions plus a pixel lookup (3 channels). -/
structure Img where
  width : ℕ
  height : ℕ
  pixel : ℕ → ℕ → ℕ × ℕ × ℕ

/-- Embeds `DifferenceSegments` (src/pdf.rs): ordered fractional bands. -/
structure DifferenceSegments where
  segments : List (F64 × F64)
deriving DecidableEq, Repr

/-- Embeds `DifferenceSegementsBuilder` (sic, src/pdf.rs): output so far
plus the currently open segment. -/
structure DifferenceSegementsBuilder where
  segments : DifferenceSegments
  current_segment : Option (F64 × F64)
deriving DecidableEq, Repr

namespace DifferenceSegementsBuilder

/-- Embeds `DifferenceSegementsBuilder::build`. -/
def build : DifferenceSegementsBuilder :=
  { segments := { segments := [] }, current_segment := none }

/-- Embeds `DifferenceSegementsBuilder::step` (state passed explicitly). -/
def step (b : DifferenceSegementsBuilder) (position : F64) (hit : Bool) :
    DifferenceSegementsBuilder :=
  match b.current_segment with
  | some v =>
      if hit then
        { b with current_segment := some (v.1, position) }
      else
        { segments := { segments := b.segments.segments ++ [v] },
          current_segment := none }
  | none =>
      if hit then { b with current_segment := some (position, position) }
      else b

/-- Embeds `DifferenceSegementsBuilder::finish`. -/
def finish (b : DifferenceSegementsBuilder) : DifferenceSegments :=
  match b.current_segment with
  | some v => { segments := b.segments.segments ++ [v] }
  | none => b.segments

/-- Runs the builder over a whole stream of `(position, hit)` pairs and
finishes, as `Comparison::from_similarity` does row by row. -/
def run (steps : List (F64 × Bool)) : DifferenceSegments :=
  (steps.foldl (fun b s => b.step s.1 s.2) build).finish

end DifferenceSegementsBuilder

/-- Embeds the private `Similiarity` enum (sic, src/pdf.rs). -/
inductive Similiarity where
  | Different : Similiarity
  | Similar : ℕ → Similiarity
deriving DecidableEq, Repr

namespace Similiarity

/-- Embeds `Similiarity::cmp` (src/pdf.rs:113-120): total order with
`Different` greater than any `Similar` count. -/
def cmp : Similiarity → Similiarity → Ordering
  | Different, Different => .eq
  | Different, Similar _ => .gt
  | Similar _, Different => .lt
  | Similar s, Similar o => compare s o

end Similiarity

/-- Embeds `PageSimilarity` (src/pdf.rs): the Page Matcher result, either
no dimensionally comparable baseline page or a matched index and count. -/
inductive PageSimilarity where
  | Different : PageSimilarity
  | Similar : ℕ → ℕ → PageSimilarity
deriving DecidableEq, Repr

/-- Embeds `Comparison` (src/pdf.rs): the per-page verdict. -/
inductive Comparison where
  | Identical : Comparison
  | Different : DifferenceSegments → Comparison
deriving DecidableEq, Repr

/-- The nested x/y loop order of `PDFComparison::compare_images`:
all coordinates `(x, y)` with `x < w`, `y < h`, outer loop on `x`. -/
def coordEnum (w h : ℕ) : List (ℕ × ℕ) :=
  (List.range w).flatMap (fun x => (List.range h).map (fun y => (x, y)))

/-- One interleaving of the data-parallel accumulation inside
`PDFComparison::compare_images`: the atomic counter starts at 0 and each
coordinate whose pixels differ adds 1, in the order given by `l`. -/
def accumRun (a b : Img) (l : List (ℕ × ℕ)) : ℕ :=
  l.foldl (fun acc p => if a.pixel p.1 p.2 ≠ b.pixel p.1 p.2 then acc + 1 else acc) 0

/-- Embeds `PDFComparison::compare_images` (src/pdf.rs:264-277):
`Different` when dimensions differ, else the count of differing pixels. -/
def compareImages (a b : Img) : Similiarity :=
  if (a.width, a.height) ≠ (b.width, b.height) then Similiarity.Different
  else Similiarity.Similar (accumRun a b (coordEnum a.width a.height))

/-- The fold step of Rust `Iterator::min_by` (`core::cmp::min_by`): keep the
earlier element unless the later one is strictly smaller. -/
def runMin (acc : ℕ × Similiarity) : List (ℕ × Similiarity) → ℕ × Similiarity
  | [] => acc
  | x :: xs => runMin (if Similiarity.cmp acc.2 x.2 = .gt then x else acc) xs

/-- Embeds `comparisons.into_iter().min_by(|a, b| a.1.cmp(&b.1))`: the
first element attaining the minimum, `none` on an empty list. -/
def minByRust : List (ℕ × Similiarity) → Option (ℕ × Similiarity)
  | [] => none
  | x :: xs => some (runMin x xs)

/-- Embeds `PDFComparison::find_min_similarity` (src/pdf.rs:240-262), with
baseline pages pre-rendered (`render_pdf_page` modelled as total; a render
failure aborts the whole operation in the source and is outside the claims
settled here). -/
def findMinSimilarity (imgA : Img) (pagesB : List Img) : PageSimilarity :=
  match minByRust ((pagesB.map (fun b => compareImages imgA b)).enum) with
  | some (i, Similiarity.Similar s) => PageSimilarity.Similar i s
  | some (_, Similiarity.Different) => PageSimilarity.Different
  | none => PageSimilarity.Different

/-- Embeds the row-equality inner loop of `Comparison::from_similarity`:
`r_a.zip(r_b)` truncates to the narrower row. -/
def rowEqual (a b : Img) (i : ℕ) : Bool :=
  (List.range (min a.width b.width)).all (fun x => decide (a.pixel x i = b.pixel x i))

/-- The `(position, hit)` stream `Comparison::from_similarity` feeds to the
builder: `rows().zip(rows())` truncates to the shorter image, and the
position divisor is `img_a.rows().len() - 1` (`num_rows - 1`). -/
def rowSteps (a b : Img) : List (F64 × Bool) :=
  (List.range (min a.height b.height)).map
    (fun i => (natDivF64 i (a.height - 1), !(rowEqual a b i)))

/-- The segment list produced for a differing matched page pair. -/
def segmentsFromImages (a b : Img) : DifferenceSegments :=
  DifferenceSegementsBuilder.run (rowSteps a b)

/-- The full-page band `vec![(0., 1.)]` used for unmatched pages. -/
def fullPage : DifferenceSegments := ⟨[(F64.val 0, F64.val 1)]⟩

/-- Embeds `Comparison::from_similarity` (src/pdf.rs:19-54). -/
def Comparison.from_similarity (sim : PageSimilarity) (imgA imgB : Option Img) :
    Comparison :=
  match sim with
  | PageSimilarity.Different => Comparison.Different fullPage
  | PageSimilarity.Similar _ s =>
      if s = 0 then Comparison.Identical
      else
        match imgA, imgB with
        | some a, some b => Comparison.Different (segmentsFromImages a b)
        | _, _ => Comparison.Different ⟨[]⟩
          -- the source calls `unwrap()` here; unreachable from `compare_pdfs`,
          -- which always passes `Some` images in the `Similar` case

/-- Embeds `PDFComparisonError` (src/pdf.rs); render-error variants are
omitted because rendering is modelled as total. -/
inductive PDFComparisonError where
  | UnableToLoadPDF : ℕ → PDFComparisonError
deriving DecidableEq, Repr

/-- Embeds `PDFComparison::compare_pdfs` (src/pdf.rs:178-225): documents
are load results carrying their pre-rendered pages. -/
def comparePdfs (pdfA pdfB : Except ℕ (List Img)) :
    Except PDFComparisonError (List Comparison) :=
  match pdfA, pdfB with
  | .ok a, .ok b =>
      let sims := a.map (fun pa => findMinSimilarity pa b)
      .ok (sims.enum.map (fun is =>
        match is.2 with
        | PageSimilarity.Different => Comparison.from_similarity is.2 none none
        | PageSimilarity.Similar pb _ =>
            Comparison.from_similarity is.2 a[is.1]? b[pb]?))
  | .ok a, .error _ => .ok (a.map (fun _ => Comparison.Different fullPage))
  | .error e, _ => .error (PDFComparisonError.UnableToLoadPDF e)

/-- The live indices passed to `pdf.pages_mut().get(...)` by the loop of
`PDFEditor::mark_differences` (src/pdf.rs:346-365), with the running
`page_shift` threaded explicitly. -/
def annotateAccessIndices : List Comparison → ℕ → ℤ → List ℤ
  | [], _, _ => []
  | c :: rest, index, page_shift =>
      match c with
      | Comparison.Identical =>
          ((index : ℤ) + page_shift) :: annotateAccessIndices rest (index + 1) (page_shift - 1)
      | Comparison.Different _ =>
          ((index : ℤ) + page_shift) :: annotateAccessIndices rest (index + 1) page_shift

/-- The index trace of `PDFEditor::mark_differences` over a verdict list:
`page_shift` starts at 0 and drops by one after each deletion. -/
def markDifferencesIndices (differences : List Comparison) : List ℤ :=
  annotateAccessIndices differences 0 0

/-- The value of `page_shift` when the verdict of original page `i` is
processed: minus the number of pages already deleted, i.e. the number of
`Identical` verdicts among the first `i`. -/
def pageShiftAt (differences : List Comparison) (i : ℕ) : ℤ :=
  -(((differences.take i).countP (fun c => decide (c = Comparison.Identical))) : ℤ)


/-- Embeds a filesystem tree for `FileManager::find_updated_files`
(src/files.rs:205-264): a file carries its modification time and its
extension, a directory its named entries. -/
inductive FSNode where
  | file : ℕ → Option String → FSNode
  | dir : List (String × FSNode) → FSNode
deriving Repr

/-- Embeds `metadata(last_path.join(file_name))`: looking a name up under
anything but an existing directory is `NotFound` (`none`). -/
def lookupChild (base : Option FSNode) (name : String) : Option FSNode :=
  match base with
  | some (FSNode.dir es) => es.lookup name
  | _ => none

/-- Embeds the traversal loop of `FileManager::find_updated_files`:
`entries` are the current directory's entries, `base` the baseline
counterpart (if any), and the paths are accumulated name lists.
A file whose baseline counterpart is a file is flagged when strictly newer
and carrying the `pdf` extension; a file with a missing counterpart, or
whose counterpart is a directory, is flagged unconditionally; directories
recurse (also into a missing baseline counterpart). -/
def findUpdatedFiles (entries : List (String × FSNode)) (base : Option FSNode)
    (curPath basePath : List String) : List (List String × List String) :=
  match entries with
  | [] => []
  | (name, node) :: rest =>
      (match node, lookupChild base name with
       | FSNode.file mt ext, some (FSNode.file bmt _) =>
           if bmt < mt ∧ ext = some "pdf" then
             [(curPath ++ [name], basePath ++ [name])]
           else []
       | FSNode.file _ _, none => [(curPath ++ [name], basePath ++ [name])]
       | FSNode.file _ _, some (FSNode.dir _) =>
           [(curPath ++ [name], basePath ++ [name])]
       | FSNode.dir es, b => findUpdatedFiles es b (curPath ++ [name]) (basePath ++ [name]))
      ++ findUpdatedFiles rest base curPath basePath

/-- Embeds `FileManagerError` (src/files.rs:17-22); io and editor error
payloads are abstract codes. -/
inductive FileManagerError where
  | ioError : ℕ → FileManagerError
  | comparisonError : PDFComparisonError → FileManagerError
  | editorError : ℕ → FileManagerError
deriving DecidableEq, Repr

/-- Embeds `FileManager::generate_comparisons` (src/files.rs:181-203):
a successful comparison containing no `Different` page is dropped by the
`find(...)?` short-circuit inside `filter_map`. -/
def generateComparisons
    (compare : String → String → Except PDFComparisonError (List Comparison))
    (files : List (String × String)) :
    List (String × Except FileManagerError (List Comparison)) :=
  files.filterMap (fun cl =>
    match compare cl.1 cl.2 with
    | .ok res =>
        if res.any (fun c =>
            match c with
            | Comparison.Different _ => true
            | Comparison.Identical => false) then
          some (cl.1, .ok res)
        else none
    | .error e => some (cl.1, .error (FileManagerError.comparisonError e)))

/-- Embeds `FileManager::generate_updated_pdfs` (src/files.rs:149-179).
`markDifferences` abstracts `PDFEditor::mark_differences`, `outPathOf` the
`diff_path.join("{filename}.diff.{timestamp}.pdf")` naming.  The second
component records every `(inPath, outPath)` pair on which
`mark_differences` was invoked, i.e. every annotated output attempted. -/
def generateUpdatedPdfs
    (markDifferences : String → List Comparison → String → Except ℕ Unit)
    (outPathOf : String → String)
    (tasks : List (String × Except FileManagerError (List Comparison))) :
    List (String × Except FileManagerError String) × List (String × String) :=
  tasks.foldr
    (fun t acc =>
      match t.2 with
      | .ok comps =>
          let outpath := outPathOf t.1
          let r : Except FileManagerError String :=
            match markDifferences t.1 comps outpath with
            | .ok _ => .ok outpath
            | .error e => .error (FileManagerError.editorError e)
          ((t.1, r) :: acc.1, (t.1, outpath) :: acc.2)
      | .error e => ((t.1, .error e) :: acc.1, acc.2))
    ([], [])

/-- Embeds `FileManager::update_changed_pdfs` (src/files.rs:122-147).
For a successfully annotated file the revised file is copied over its
associated baseline path after `create_dir_all` on that path's parent; the
`copy` future is awaited in the match scrutinee, so the copy is attempted
even when directory creation failed.  The second component records every
`(source, target)` copy attempted. -/
def updateChangedPdfs
    (createDirAll : String → Except ℕ Unit)
    (copyFile : String → String → Except ℕ Unit)
    (parentOf : String → Option String)
    (associations : String → Option String)
    (updated : List (String × Except FileManagerError String)) :
    List (String × Except FileManagerError String) × List (String × String) :=
  updated.foldr
    (fun pr acc =>
      match pr.2 with
      | .ok diffPath =>
          match associations pr.1 with
          | some target =>
              let res : Option (Except ℕ Unit) := (parentOf target).map createDirAll
              let cp := copyFile pr.1 target
              let outcome : Except FileManagerError String :=
                match res, cp with
                | some (.error e), _ => .error (FileManagerError.ioError e)
                | _, .ok _ => .ok diffPath
                | _, .error e => .error (FileManagerError.ioError e)
              ((pr.1, outcome) :: acc.1, (pr.1, target) :: acc.2)
          | none => ((pr.1, .ok diffPath) :: acc.1, acc.2)
            -- the source calls `unwrap()` here; unreachable in `update`,
            -- whose `updated` keys all come from `associations`
      | .error e => ((pr.1, .error e) :: acc.1, acc.2))
    ([], [])

/-- The composed per-pass pipeline of `FileManager::update`
(src/files.rs:103-120): comparisons, annotation, then baseline update.
Returns the batch outcome map (as a keyed list), the attempted annotated
outputs, and the attempted copies. -/
def batchPipeline
    (compare : String → String → Except PDFComparisonError (List Comparison))
    (markDifferences : String → List Comparison → String → Except ℕ Unit)
    (outPathOf : String → String)
    (createDirAll : String → Except ℕ Unit)
    (copyFile : String → String → Except ℕ Unit)
    (parentOf : String → Option String)
    (files : List (String × String)) :
    List (String × Except FileManagerError String) ×
      List (String × String) × List (String × String) :=
  let comps := generateComparisons compare files
  let up := generateUpdatedPdfs markDifferences outPathOf comps
  let post := updateChangedPdfs createDirAll copyFile parentOf
    (fun p => files.lookup p) up.1
  (post.1, up.2, post.2)

namespace Similiarity

theorem cmp_self (a : Similiarity) : a.cmp a = .eq := by
  cases a <;> simp [cmp, Nat.compare_eq_eq]

theorem cmp_gt_trans {a b c : Similiarity} (h1 : a.cmp b = .gt) (h2 : b.cmp c = .gt) :
    a.cmp c = .gt := by
  cases a <;> cases b <;> cases c <;>
    simp_all [cmp, Nat.compare_eq_gt] <;> omega

theorem cmp_le_trans {a b c : Similiarity} (h1 : a.cmp b ≠ .gt) (h2 : b.cmp c ≠ .gt) :
    a.cmp c ≠ .gt := by
  cases a <;> cases b <;> cases c <;>
    simp_all [cmp, Nat.compare_eq_gt] <;> omega

theorem cmp_le_gt_trans {a b c : Similiarity} (h1 : a.cmp b ≠ .gt) (h2 : a.cmp c = .gt) :
    b.cmp c = .gt := by
  cases a <;> cases b <;> cases c <;>
    simp_all [cmp, Nat.compare_eq_gt] <;> omega

theorem cmp_gt_le_trans {a b c : Similiarity} (h1 : a.cmp b = .gt) (h2 : c.cmp b ≠ .gt) :
    a.cmp c = .gt := by
  cases a <;> cases b <;> cases c <;>
    simp_all [cmp, Nat.compare_eq_gt] <;> omega

theorem cmp_gt_asymm {a b : Similiarity} (h : a.cmp b = .gt) : b.cmp a ≠ .gt := by
  cases a <;> cases b <;> simp_all [cmp, Nat.compare_eq_gt] <;> omega

end Similiarity

/-- Full functional specification of the `min_by` fold of
`find_min_similarity`, run over an index-tagged tail `List.enumFrom pos l`
starting from accumulator `(bi, bs)` with `bi < pos`:
the result is the accumulator or a tagged element of `l`; it is a lower
bound (under `Similiarity.cmp`) of the accumulator and of every element;
it differs from the accumulator only by being strictly smaller; and every
element tagged strictly before the winning index is strictly greater. -/
theorem runMin_spec (l : List Similiarity) (pos bi : ℕ) (bs : Similiarity)
    (hbi : bi < pos) :
    (runMin (bi, bs) (List.enumFrom pos l) = (bi, bs) ∨
      ∃ k, ∃ hk : k < l.length,
        runMin (bi, bs) (List.enumFrom pos l) = (pos + k, l.get ⟨k, hk⟩))
    ∧ Similiarity.cmp (runMin (bi, bs) (List.enumFrom pos l)).2 bs ≠ .gt
    ∧ (∀ k, (hk : k < l.length) →
        Similiarity.cmp (runMin (bi, bs) (List.enumFrom pos l)).2 (l.get ⟨k, hk⟩) ≠ .gt)
    ∧ (runMin (bi, bs) (List.enumFrom pos l) ≠ (bi, bs) →
        Similiarity.cmp bs (runMin (bi, bs) (List.enumFrom pos l)).2 = .gt)
    ∧ (∀ k, (hk : k < l.length) → pos + k < (runMin (bi, bs) (List.enumFrom pos l)).1 →
        Similiarity.cmp (l.get ⟨k, hk⟩) (runMin (bi, bs) (List.enumFrom pos l)).2 = .gt) := by
  induction l generalizing pos bi bs with
  | nil =>
      refine ⟨Or.inl rfl, ?_, ?_, ?_, ?_⟩
      · simp [runMin, Similiarity.cmp_self]
      · intro k hk; exact absurd hk (by simp)
      · intro h; exact absurd rfl h
      · intro k hk; exact absurd hk (by simp)
  | cons s rest ih =>
      have hstep : runMin (bi, bs) (List.enumFrom pos (s :: rest))
          = runMin (if Similiarity.cmp bs s = .gt then (pos, s) else (bi, bs))
              (List.enumFrom (pos + 1) rest) := by
        simp [List.enumFrom, runMin]
      by_cases hc : Similiarity.cmp bs s = .gt
      · -- the new element strictly improves on the accumulator
        rw [hstep, if_pos hc]
        obtain ⟨hmem, hleacc, hleall, hstrict, hbefore⟩ :=
          ih (pos + 1) pos s (Nat.lt_succ_self pos)
        set r := runMin (pos, s) (List.enumFrom (pos + 1) rest) with hr
        refine ⟨?_, ?_, ?_, ?_, ?_⟩
        · rcases hmem with h | ⟨k, hk, h⟩
          · exact Or.inr ⟨0, by simp, by simpa using h⟩
          · exact Or.inr ⟨k + 1, by simpa using hk, by
              simpa [Nat.add_assoc, Nat.add_comm 1 k] using h⟩
        · exact Similiarity.cmp_gt_asymm (Similiarity.cmp_gt_le_trans hc hleacc)
        · intro k hk
          match k with
          | 0 => simpa using hleacc
          | k + 1 =>
              have hk' : k < rest.length := by simpa using hk
              simpa using hleall k hk'
        · intro _
          rcases hmem with h | ⟨k, hk, h⟩
          · rw [h]; exact hc
          · have : Similiarity.cmp s r.2 = .gt := by
              apply hstrict
              intro heq
              rw [heq] at h
              have : pos = pos + 1 + k := congrArg Prod.fst h
              omega
            exact Similiarity.cmp_gt_trans hc this
        · intro k hk hlt
          match k with
          | 0 =>
              have hne : r ≠ (pos, s) := by
                intro heq
                rw [heq] at hlt
                simp at hlt
              simpa using hstrict hne
          | k + 1 =>
              have hk' : k < rest.length := by simpa using hk
              have : pos + 1 + k < r.1 := by omega
              simpa using hbefore k hk' this
      · -- the accumulator survives the new element
        rw [hstep, if_neg hc]
        obtain ⟨hmem, hleacc, hleall, hstrict, hbefore⟩ :=
          ih (pos + 1) bi bs (Nat.lt_succ_of_lt hbi)
        set r := runMin (bi, bs) (List.enumFrom (pos + 1) rest) with hr
        refine ⟨?_, hleacc, ?_, hstrict, ?_⟩
        · rcases hmem with h | ⟨k, hk, h⟩
          · exact Or.inl h
          · exact Or.inr ⟨k + 1, by simpa using hk, by
              simpa [Nat.add_assoc, Nat.add_comm 1 k] using h⟩
        · intro k hk
          match k with
          | 0 =>
              simpa using Similiarity.cmp_le_trans hleacc hc
          | k + 1 =>
              have hk' : k < rest.length := by simpa using hk
              simpa using hleall k hk'
        · intro k hk hlt
          match k with
          | 0 =>
              have hne : r ≠ (bi, bs) := by
                intro heq
                rw [heq] at hlt
                simp at hlt
                omega
              have hbsr : Similiarity.cmp bs r.2 = .gt := hstrict hne
              simpa using Similiarity.cmp_le_gt_trans (by simpa using hc) hbsr
          | k + 1 =>
              have hk' : k < rest.length := by simpa using hk
              have : pos + 1 + k < r.1 := by omega
              simpa using hbefore k hk' this

/-- The `min_by` call of `find_min_similarity` over an index-tagged
similarity list returns the first index attaining the minimum under
`Similiarity.cmp`. -/
theorem minByRust_spec (sims : List Similiarity) (hne : sims ≠ []) :
    ∃ i, ∃ hi : i < sims.length,
      minByRust sims.enum = some (i, sims.get ⟨i, hi⟩)
      ∧ (∀ j, (hj : j < sims.length) →
          Similiarity.cmp (sims.get ⟨i, hi⟩) (sims.get ⟨j, hj⟩) ≠ .gt)
      ∧ (∀ j, (hj : j < sims.length) → j < i →
          Similiarity.cmp (sims.get ⟨j, hj⟩) (sims.get ⟨i, hi⟩) = .gt) := by
  match sims, hne with
  | s₀ :: rest, _ =>
    have henum : (s₀ :: rest).enum = (0, s₀) :: List.enumFrom 1 rest := by
      simp [List.enum]
    obtain ⟨hmem, hleacc, hleall, hstrict, hbefore⟩ :=
      runMin_spec rest 1 0 s₀ Nat.one_pos
    set r := runMin (0, s₀) (List.enumFrom 1 rest) with hr
    have hmin : minByRust (s₀ :: rest).enum = some r := by
      rw [henum]; rfl
    rcases hmem with h | ⟨k, hk, h⟩
    · refine ⟨0, by simp, ?_, ?_, ?_⟩
      · rw [hmin, h]; simp
      · intro j hj
        match j with
        | 0 => simp [Similiarity.cmp_self]
        | j + 1 =>
            have hj' : j < rest.length := by simpa using hj
            have := hleall j hj'
            rw [h] at this
            simpa using this
      · intro j hj hji; omega
    · refine ⟨k + 1, by simpa using hk, ?_, ?_, ?_⟩
      · rw [hmin, h]; simp [Nat.add_comm]
      · intro j hj
        have hr2 : r.2 = rest.get ⟨k, hk⟩ := by rw [h]
        match j with
        | 0 =>
            have := hleacc
            rw [hr2] at this
            simpa using this
        | j + 1 =>
            have hj' : j < rest.length := by simpa using hj
            have := hleall j hj'
            rw [hr2] at this
            simpa using this
      · intro j hj hji
        have hr2 : r.2 = rest.get ⟨k, hk⟩ := by rw [h]
        match j with
        | 0 =>
            have hne0 : r ≠ (0, s₀) := by
              rw [h]; intro heq
              have := congrArg Prod.fst heq
              simp at this
            have := hstrict hne0
            rw [hr2] at this
            simpa using this
        | j + 1 =>
            have hj' : j < rest.length := by simpa using hj
            have hlt : 1 + j < r.1 := by
              rw [h]; simp; omega
            have := hbefore j hj' hlt
            rw [hr2] at this
            simpa using this

/-- The Page Matcher on a baseline with at least one dimensionally
comparable page: it returns the lowest baseline index attaining the
minimal distance under `Similiarity.cmp`. -/
theorem findMinSimilarity_argmin (imgA : Img) (pagesB : List Img)
    (hcomp : ∃ j, ∃ hj : j < pagesB.length,
      compareImages imgA (pagesB.get ⟨j, hj⟩) ≠ Similiarity.Different) :
    ∃ i n, ∃ hi : i < pagesB.length,
      findMinSimilarity imgA pagesB = PageSimilarity.Similar i n
      ∧ compareImages imgA (pagesB.get ⟨i, hi⟩) = Similiarity.Similar n
      ∧ (∀ j, (hj : j < pagesB.length) →
          Similiarity.cmp (Similiarity.Similar n)
            (compareImages imgA (pagesB.get ⟨j, hj⟩)) ≠ .gt)
      ∧ (∀ j, (hj : j < pagesB.length) → j < i →
          Similiarity.cmp (compareImages imgA (pagesB.get ⟨j, hj⟩))
            (Similiarity.Similar n) = .gt) := by
  obtain ⟨j, hj, hjc⟩ := hcomp
  have hne : pagesB.map (fun b => compareImages imgA b) ≠ [] := by
    intro h
    have : pagesB = [] := by simpa using h
    subst this
    exact absurd hj (by simp)
  obtain ⟨i, hi, hmin, hle, hgt⟩ :=
    minByRust_spec (pagesB.map (fun b => compareImages imgA b)) hne
  have hlen : (pagesB.map (fun b => compareImages imgA b)).length = pagesB.length := by
    simp
  have hget : ∀ m, (hm : m < pagesB.length) →
      (pagesB.map (fun b => compareImages imgA b)).get ⟨m, hlen ▸ hm⟩
        = compareImages imgA (pagesB.get ⟨m, hm⟩) := by
    intro m hm; simp
  have hi' : i < pagesB.length := hlen ▸ hi
  -- the minimum cannot be `Different`: it is `≤` the comparable page `j`
  have hjle := hle j (hlen ▸ hj)
  rw [hget j hj] at hjle
  obtain ⟨n, hn⟩ : ∃ n,
      (pagesB.map (fun b => compareImages imgA b)).get ⟨i, hi⟩
        = Similiarity.Similar n := by
    cases hcase : (pagesB.map (fun b => compareImages imgA b)).get ⟨i, hi⟩ with
    | Similar n => exact ⟨n, rfl⟩
    | Different =>
        rw [hcase] at hjle
        cases hcc : compareImages imgA (pagesB.get ⟨j, hj⟩) with
        | Different => exact absurd hcc hjc
        | Similar m =>
            rw [hcc] at hjle
            exact absurd rfl hjle
  refine ⟨i, n, hi', ?_, ?_, ?_, ?_⟩
  · rw [findMinSimilarity, hmin, hn]
  · rw [← hget i hi', hn]
  · intro m hm
    have := hle m (hlen ▸ hm)
    rw [hn, hget m hm] at this
    exact this
  · intro m hm hmi
    have := hgt m (hlen ▸ hm) hmi
    rw [hn, hget m hm] at this
    exact this

/-- The Page Matcher on an empty baseline or an all-`Incomparable`
baseline yields `Different` (the `NoMatch` outcome). -/
theorem findMinSimilarity_noMatch (imgA : Img) (pagesB : List Img)
    (h : pagesB = [] ∨ ∀ j, (hj : j < pagesB.length) →
      compareImages imgA (pagesB.get ⟨j, hj⟩) = Similiarity.Different) :
    findMinSimilarity imgA pagesB = PageSimilarity.Different := by
  rcases h with h | h
  · subst h; rfl
  · by_cases hne : pagesB.map (fun b => compareImages imgA b) = []
    · have : pagesB = [] := by simpa using hne
      subst this; rfl
    · obtain ⟨i, hi, hmin, _, _⟩ :=
        minByRust_spec (pagesB.map (fun b => compareImages imgA b)) hne
      have hi' : i < pagesB.length := by simpa using hi
      have : (pagesB.map (fun b => compareImages imgA b)).get ⟨i, hi⟩
          = Similiarity.Different := by
        simpa using h i hi'
      rw [findMinSimilarity, hmin, this]

/-- Conversely, `Different` (`NoMatch`) only arises from an empty baseline
or an all-`Incomparable` one. -/
theorem findMinSimilarity_noMatch_only (imgA : Img) (pagesB : List Img)
    (h : findMinSimilarity imgA pagesB = PageSimilarity.Different) :
    pagesB = [] ∨ ∀ j, (hj : j < pagesB.length) →
      compareImages imgA (pagesB.get ⟨j, hj⟩) = Similiarity.Different := by
  by_contra hcon
  push_neg at hcon
  obtain ⟨hne, j, hj, hjc⟩ := hcon
  obtain ⟨i, n, hi, hfind, _, _, _⟩ :=
    findMinSimilarity_argmin imgA pagesB ⟨j, hj, hjc⟩
  rw [hfind] at h
  exact PageSimilarity.noConfusion h

/-- A 1×1 black raster. -/
def oneRowImgA : Img := ⟨1, 1, fun _ _ => (0, 0, 0)⟩

/-- A 1×1 red raster (differs from `oneRowImgA` at its only pixel). -/
def oneRowImgB : Img := ⟨1, 1, fun _ _ => (255, 0, 0)⟩

/-- A 2×1 black raster (dimensionally incomparable with the 1×1 ones). -/
def wideImg : Img := ⟨2, 1, fun _ _ => (0, 0, 0)⟩

/-- C2 counterexample: a baseline with one page (of different dimensions)
on which the Page Matcher returns no baseline index at all
(`PageSimilarity.Different`, the `NoMatch` outcome), although the claim
promises the minimal-distance index for every baseline with at least one
page. -/
theorem find_min_similarity_no_index_cex :
    oneRowImgA.width = 1 ∧ wideImg.width = 2
    ∧ findMinSimilarity oneRowImgA [wideImg] = PageSimilarity.Different := by
  refine ⟨rfl, rfl, ?_⟩
  decide

/-- C2 (amended): for every revised page and every baseline document with
at least one page of which at least one comparison yields a `Count`
(i.e. is dimensionally comparable), the Page Matcher returns the baseline
index whose distance is minimal under the total order where `Incomparable`
(`Similiarity.Different`) is greater than any `Count`, and on ties the
first-encountered (lowest) index is returned.  (With zero pages, or with
every comparison `Incomparable`, it returns `NoMatch` instead.) -/
theorem find_min_similarity_first_min (imgA : Img) (pagesB : List Img)
    (hne : pagesB ≠ [])
    (hcomp : ∃ j, ∃ hj : j < pagesB.length,
      compareImages imgA (pagesB.get ⟨j, hj⟩) ≠ Similiarity.Different) :
    ∃ i n, ∃ hi : i < pagesB.length,
      findMinSimilarity imgA pagesB = PageSimilarity.Similar i n
      ∧ compareImages imgA (pagesB.get ⟨i, hi⟩) = Similiarity.Similar n
      ∧ (∀ j, (hj : j < pagesB.length) →
          Similiarity.cmp (Similiarity.Similar n)
            (compareImages imgA (pagesB.get ⟨j, hj⟩)) ≠ .gt)
      ∧ (∀ j, (hj : j < pagesB.length) → j < i →
          Similiarity.cmp (compareImages imgA (pagesB.get ⟨j, hj⟩))
            (Similiarity.Similar n) = .gt) :=
  findMinSimilarity_argmin imgA pagesB hcomp

theorem accumRun_eq_countP (a b : Img) (l : List (ℕ × ℕ)) :
    accumRun a b l
      = l.countP (fun p => decide (a.pixel p.1 p.2 ≠ b.pixel p.1 p.2)) := by
  suffices h : ∀ n, l.foldl
      (fun acc p => if a.pixel p.1 p.2 ≠ b.pixel p.1 p.2 then acc + 1 else acc) n
      = n + l.countP (fun p => decide (a.pixel p.1 p.2 ≠ b.pixel p.1 p.2)) by
    simpa [accumRun] using h 0
  induction l with
  | nil => intro n; simp
  | cons x xs ih =>
      intro n
      rw [List.foldl_cons, ih, List.countP_cons]
      by_cases h : a.pixel x.1 x.2 ≠ b.pixel x.1 x.2 <;> simp [h] <;> omega

theorem countP_range_sum (n : ℕ) (p : ℕ → Bool) :
    (List.range n).countP p = ∑ x ∈ Finset.range n, (if p x then 1 else 0) := by
  induction n with
  | zero => simp
  | succ n ih =>
      rw [List.range_succ, List.countP_append, ih, Finset.sum_range_succ]
      simp [List.countP_cons]

theorem countP_coordEnum_sum (w h : ℕ) (q : ℕ × ℕ → Bool) :
    (coordEnum w h).countP q
      = ∑ x ∈ Finset.range w, ∑ y ∈ Finset.range h, (if q (x, y) then 1 else 0) := by
  induction w with
  | zero => simp [coordEnum]
  | succ w ih =>
      have henum : coordEnum (w + 1) h
          = coordEnum w h ++ (List.range h).map (fun y => (w, y)) := by
        simp [coordEnum, List.range_succ]
      rw [henum, List.countP_append, ih, Finset.sum_range_succ, List.countP_map,
        countP_range_sum]
      simp [Function.comp]

theorem accumRun_coordEnum_card (a b : Img) (w h : ℕ) :
    accumRun a b (coordEnum w h)
      = ((Finset.range w ×ˢ Finset.range h).filter
          (fun p => a.pixel p.1 p.2 ≠ b.pixel p.1 p.2)).card := by
  rw [accumRun_eq_countP, countP_coordEnum_sum, Finset.card_filter,
    Finset.sum_product]
  simp

/-- C5: the Pixel Comparator returns `Incomparable`
(`Similiarity.Different`) exactly when the dimensions differ, and
otherwise `Count(n)` where `n` is the number of coordinates at which the
pixels differ channel-wise; a raster compared to itself yields `Count(0)`
and two equal-size rasters differing everywhere yield
`Count(width*height)`. -/
theorem compare_images_spec (a b : Img) :
    (compareImages a b = Similiarity.Different
      ↔ (a.width, a.height) ≠ (b.width, b.height))
    ∧ ((a.width, a.height) = (b.width, b.height) →
        compareImages a b = Similiarity.Similar
          (((Finset.range a.width ×ˢ Finset.range a.height).filter
              (fun p => a.pixel p.1 p.2 ≠ b.pixel p.1 p.2)).card))
    ∧ compareImages a a = Similiarity.Similar 0
    ∧ ((a.width, a.height) = (b.width, b.height) →
        (∀ x, x < a.width → ∀ y, y < a.height → a.pixel x y ≠ b.pixel x y) →
        compareImages a b = Similiarity.Similar (a.width * a.height)) := by
  refine ⟨?_, ?_, ?_, ?_⟩
  · by_cases hd : (a.width, a.height) = (b.width, b.height) <;>
      simp [compareImages, hd]
  · intro hd
    rw [compareImages, if_neg (by simpa using hd), accumRun_coordEnum_card]
  · rw [compareImages, if_neg (by simp), accumRun_coordEnum_card]
    simp
  · intro hd hall
    rw [compareImages, if_neg (by simpa using hd), accumRun_coordEnum_card]
    congr 1
    rw [Finset.filter_true_of_mem, Finset.card_product, Finset.card_range,
      Finset.card_range]
    intro p hp
    rw [Finset.mem_product, Finset.mem_range, Finset.mem_range] at hp
    exact hall p.1 hp.1 p.2 hp.2

/-- C5 witness: concrete evaluations of the Pixel Comparator spec. -/
theorem compare_images_spec_witness :
    (compareImages oneRowImgA wideImg = Similiarity.Different
      ↔ (oneRowImgA.width, oneRowImgA.height) ≠ (wideImg.width, wideImg.height))
    ∧ compareImages oneRowImgA oneRowImgB = Similiarity.Similar
        (((Finset.range oneRowImgA.width ×ˢ Finset.range oneRowImgA.height).filter
            (fun p => oneRowImgA.pixel p.1 p.2 ≠ oneRowImgB.pixel p.1 p.2)).card)
    ∧ compareImages oneRowImgA oneRowImgA = Similiarity.Similar 0
    ∧ compareImages oneRowImgA oneRowImgB
        = Similiarity.Similar (oneRowImgA.width * oneRowImgA.height) :=
  ⟨(compare_images_spec oneRowImgA wideImg).1,
   (compare_images_spec oneRowImgA oneRowImgB).2.1 rfl,
   (compare_images_spec oneRowImgA oneRowImgA).2.2.1,
   (compare_images_spec oneRowImgA oneRowImgB).2.2.2 rfl (by decide)⟩

/-- C8: determinism of the data-parallel pixel accumulation: any
interleaving (any permutation of the coordinate stream) and any
partition-then-reduce split of the atomic-counter increments produce the
same count, and `compare_images` returns exactly that count on
equal-dimension rasters. -/
theorem compare_images_deterministic (a b : Img) :
    (∀ l₁ l₂ : List (ℕ × ℕ), l₁.Perm l₂ → accumRun a b l₁ = accumRun a b l₂)
    ∧ (∀ l₁ l₂ : List (ℕ × ℕ),
        accumRun a b (l₁ ++ l₂) = accumRun a b l₁ + accumRun a b l₂)
    ∧ ((a.width, a.height) = (b.width, b.height) →
        compareImages a b
          = Similiarity.Similar (accumRun a b (coordEnum a.width a.height))) := by
  refine ⟨?_, ?_, ?_⟩
  · intro l₁ l₂ hperm
    rw [accumRun_eq_countP, accumRun_eq_countP]
    exact hperm.countP_eq _
  · intro l₁ l₂
    rw [accumRun_eq_countP, accumRun_eq_countP, accumRun_eq_countP,
      List.countP_append]
  · intro hd
    rw [compareImages, if_neg (by simpa using hd)]

/-- C8 witness: a concrete reordering of the increments of a 1×2-pixel
comparison yields the same count. -/
theorem compare_images_deterministic_witness :
    accumRun oneRowImgA oneRowImgB [(0, 0), (1, 0)]
      = accumRun oneRowImgA oneRowImgB [(1, 0), (0, 0)]
    ∧ accumRun oneRowImgA oneRowImgB ([(0, 0)] ++ [(1, 0)])
      = accumRun oneRowImgA oneRowImgB [(0, 0)]
        + accumRun oneRowImgA oneRowImgB [(1, 0)]
    ∧ compareImages oneRowImgA oneRowImgB
      = Similiarity.Similar
          (accumRun oneRowImgA oneRowImgB
            (coordEnum oneRowImgA.width oneRowImgA.height)) :=
  ⟨(compare_images_deterministic oneRowImgA oneRowImgB).1 _ _ (by decide),
   (compare_images_deterministic oneRowImgA oneRowImgB).2.1 _ _,
   (compare_images_deterministic oneRowImgA oneRowImgB).2.2 rfl⟩

/-- `n` evenly spaced normalized row positions, as produced for an
`n`-row image: `i / (n - 1)`. -/
def evenPositions (n : ℕ) : List F64 :=
  (List.range n).map (fun i => natDivF64 i (n - 1))

/-- C4: the Difference Segment Builder is the described run-length
encoder: a hit with no open segment opens one at that position, a hit
with an open segment extends its end, a non-hit closes any open segment
by appending `(start, lastEnd)`, `finish` flushes a remaining open
segment; the hit stream `(false,true,true,false,true)` over 5 evenly
spaced positions yields exactly `(0.25, 0.5)` and `(1, 1)`, an all-`true`
stream yields the single full-range segment, an all-`false` stream the
empty list. -/
theorem difference_builder_rle :
    (∀ (segs : List (F64 × F64)) (pos : F64),
      DifferenceSegementsBuilder.step ⟨⟨segs⟩, none⟩ pos true
        = ⟨⟨segs⟩, some (pos, pos)⟩)
    ∧ (∀ (segs : List (F64 × F64)) (pos : F64),
      DifferenceSegementsBuilder.step ⟨⟨segs⟩, none⟩ pos false = ⟨⟨segs⟩, none⟩)
    ∧ (∀ (segs : List (F64 × F64)) (s e pos : F64),
      DifferenceSegementsBuilder.step ⟨⟨segs⟩, some (s, e)⟩ pos true
        = ⟨⟨segs⟩, some (s, pos)⟩)
    ∧ (∀ (segs : List (F64 × F64)) (s e pos : F64),
      DifferenceSegementsBuilder.step ⟨⟨segs⟩, some (s, e)⟩ pos false
        = ⟨⟨segs ++ [(s, e)]⟩, none⟩)
    ∧ (∀ (segs : List (F64 × F64)) (s e : F64),
      DifferenceSegementsBuilder.finish ⟨⟨segs⟩, some (s, e)⟩ = ⟨segs ++ [(s, e)]⟩)
    ∧ (∀ segs : List (F64 × F64),
      DifferenceSegementsBuilder.finish ⟨⟨segs⟩, none⟩ = ⟨segs⟩)
    ∧ DifferenceSegementsBuilder.run
        ((evenPositions 5).zip [false, true, true, false, true])
      = ⟨[(F64.val (1/4), F64.val (1/2)), (F64.val 1, F64.val 1)]⟩
    ∧ DifferenceSegementsBuilder.run
        ((evenPositions 5).zip [true, true, true, true, true])
      = ⟨[(F64.val 0, F64.val 1)]⟩
    ∧ DifferenceSegementsBuilder.run
        ((evenPositions 5).zip [false, false, false, false, false]) = ⟨[]⟩ := by
  refine ⟨fun _ _ => rfl, fun _ _ => rfl, fun _ _ _ _ => rfl, fun _ _ _ _ => rfl,
    fun _ _ _ => rfl, fun _ => rfl, ?_, ?_, ?_⟩ <;>
    · simp [DifferenceSegementsBuilder.run, DifferenceSegementsBuilder.step,
        DifferenceSegementsBuilder.finish, DifferenceSegementsBuilder.build,
        evenPositions, natDivF64, List.range_succ]
      try norm_num

/-- C3 (code-bug evidence): on a 1-row differing page pair — reachable,
since the pixel comparator reports `Count(1)` and the matcher
`Similar 0 1` — the position fed to the builder for row 0 is
`0.0 / 0.0` = NaN (`num_rows - 1 = 0`), not the spec's `0.0`, and the NaN
propagates into the emitted difference segment. -/
theorem single_row_position_is_nan :
    natDivF64 0 (1 - 1) = F64.nan
    ∧ F64.nan ≠ F64.val 0
    ∧ compareImages oneRowImgA oneRowImgB = Similiarity.Similar 1
    ∧ findMinSimilarity oneRowImgA [oneRowImgB] = PageSimilarity.Similar 0 1
    ∧ rowSteps oneRowImgA oneRowImgB = [(F64.nan, true)]
    ∧ Comparison.from_similarity (PageSimilarity.Similar 0 1)
        (some oneRowImgA) (some oneRowImgB)
      = Comparison.Different ⟨[(F64.nan, F64.nan)]⟩ := by
  decide

theorem annotateAccessIndices_length (ds : List Comparison) (i0 : ℕ) (sh : ℤ) :
    (annotateAccessIndices ds i0 sh).length = ds.length := by
  induction ds generalizing i0 sh with
  | nil => rfl
  | cons c rest ih => cases c <;> simp [annotateAccessIndices, ih]

theorem annotateAccessIndices_get (ds : List Comparison) (i0 : ℕ) (sh : ℤ) :
    ∀ k, (hk : k < (annotateAccessIndices ds i0 sh).length) →
      (annotateAccessIndices ds i0 sh).get ⟨k, hk⟩
        = ((i0 + k : ℕ) : ℤ) + sh
          - (((ds.take k).countP (fun c => decide (c = Comparison.Identical))) : ℤ) := by
  induction ds generalizing i0 sh with
  | nil =>
      intro k hk
      simp [annotateAccessIndices] at hk
  | cons c rest ih =>
      intro k hk
      cases c with
      | Identical =>
          match k with
          | 0 => simp [annotateAccessIndices]
          | k + 1 =>
              have hk' : k < (annotateAccessIndices rest (i0 + 1) (sh - 1)).length := by
                rw [annotateAccessIndices_length]
                rw [annotateAccessIndices_length] at hk
                simpa using Nat.lt_of_succ_lt_succ hk
              calc (annotateAccessIndices (Comparison.Identical :: rest) i0 sh).get
                      ⟨k + 1, hk⟩
                  = (annotateAccessIndices rest (i0 + 1) (sh - 1)).get ⟨k, hk'⟩ := rfl
                _ = ((i0 + 1 + k : ℕ) : ℤ) + (sh - 1)
                    - (((rest.take k).countP
                        (fun c => decide (c = Comparison.Identical))) : ℤ) :=
                    ih (i0 + 1) (sh - 1) k hk'
                _ = ((i0 + (k + 1) : ℕ) : ℤ) + sh
                    - ((((Comparison.Identical :: rest).take (k + 1)).countP
                        (fun c => decide (c = Comparison.Identical))) : ℤ) := by
                    rw [List.take_succ_cons, List.countP_cons]
                    simp
                    ring
      | Different seg =>
          match k with
          | 0 => simp [annotateAccessIndices]
          | k + 1 =>
              have hk' : k < (annotateAccessIndices rest (i0 + 1) sh).length := by
                rw [annotateAccessIndices_length]
                rw [annotateAccessIndices_length] at hk
                simpa using Nat.lt_of_succ_lt_succ hk
              calc (annotateAccessIndices (Comparison.Different seg :: rest) i0 sh).get
                      ⟨k + 1, hk⟩
                  = (annotateAccessIndices rest (i0 + 1) sh).get ⟨k, hk'⟩ := rfl
                _ = ((i0 + 1 + k : ℕ) : ℤ) + sh
                    - (((rest.take k).countP
                        (fun c => decide (c = Comparison.Identical))) : ℤ) :=
                    ih (i0 + 1) sh k hk'
                _ = ((i0 + (k + 1) : ℕ) : ℤ) + sh
                    - ((((Comparison.Different seg :: rest).take (k + 1)).countP
                        (fun c => decide (c = Comparison.Identical))) : ℤ) := by
                    rw [List.take_succ_cons, List.countP_cons]
                    simp
                    ring

/-- The verdict sequence `[Identical, Different, Identical, Different]`
of the claimed page-shift example. -/
def exampleVerdicts : List Comparison :=
  [Comparison.Identical, Comparison.Different fullPage,
   Comparison.Identical, Comparison.Different fullPage]

/-- C1 counterexample: over the verdict sequence
`[Identical, Different, Identical, Different]` the Annotator's page-fetch
calls use live indices `[0, 0, 1, 1]`, not the `[0, 0, 0, 1]` the claim
asserts. -/
theorem mark_differences_claimed_trace_false :
    markDifferencesIndices exampleVerdicts ≠ [0, 0, 0, 1]
    ∧ markDifferencesIndices exampleVerdicts = [0, 0, 1, 1] := by
  decide

/-- C1 (amended): processing verdicts in ascending original order with
`page_shift` starting at 0 and decremented after each deletion, the live
index accessed for original page `i` is always `i + pageShift`, where
`pageShift` is minus the number of pages already deleted; for the verdict
sequence `[Identical, Different, Identical, Different]` the fetched
indices are `[0, 0, 1, 1]`. -/
theorem mark_differences_page_shift :
    (∀ ds : List Comparison, (markDifferencesIndices ds).length = ds.length)
    ∧ (∀ ds : List Comparison, ∀ i, (h : i < (markDifferencesIndices ds).length) →
        (markDifferencesIndices ds).get ⟨i, h⟩ = (i : ℤ) + pageShiftAt ds i)
    ∧ markDifferencesIndices exampleVerdicts = [0, 0, 1, 1] := by
  refine ⟨fun ds => annotateAccessIndices_length ds 0 0, ?_, by decide⟩
  intro ds i h
  show (annotateAccessIndices ds 0 0).get ⟨i, h⟩ = (i : ℤ) + pageShiftAt ds i
  rw [annotateAccessIndices_get ds 0 0 i h, pageShiftAt]
  simp
  ring

/-- C1 witness: the invariant evaluated at original page 3 of the example
sequence: live index `1 = 3 + (-2)`. -/
theorem mark_differences_page_shift_witness :
    (markDifferencesIndices exampleVerdicts).get ⟨3, by decide⟩
      = (3 : ℤ) + pageShiftAt exampleVerdicts 3 :=
  mark_differences_page_shift.2.1 exampleVerdicts 3 (by decide)

/-- C6: the Document Comparator's degrade convention: when the baseline
fails to load while the revised document loads, every revised page is
`Different` with the single full-page segment `(0,1)`; and the Page
Matcher yields `NoMatch` (`PageSimilarity.Different`) exactly for a
zero-page baseline or an all-`Incomparable` one, whereupon the verdict is
likewise `Different([(0,1)])` — never an empty segment list. -/
theorem compare_pdfs_degrade :
    (∀ (a : List Img) (e : ℕ),
      comparePdfs (Except.ok a) (Except.error e)
        = Except.ok (a.map (fun _ => Comparison.Different fullPage)))
    ∧ (∀ (imgA : Img) (pagesB : List Img),
        (pagesB = [] ∨ ∀ j, (hj : j < pagesB.length) →
          compareImages imgA (pagesB.get ⟨j, hj⟩) = Similiarity.Different)
        ↔ findMinSimilarity imgA pagesB = PageSimilarity.Different)
    ∧ (∀ iA iB : Option Img,
        Comparison.from_similarity PageSimilarity.Different iA iB
          = Comparison.Different fullPage)
    ∧ fullPage.segments ≠ [] := by
  refine ⟨fun a e => rfl, ?_, fun iA iB => rfl, by simp [fullPage]⟩
  intro imgA pagesB
  exact ⟨findMinSimilarity_noMatch imgA pagesB,
    findMinSimilarity_noMatch_only imgA pagesB⟩

/-- C6 witness: concrete degrade evaluations. -/
theorem compare_pdfs_degrade_witness :
    comparePdfs (Except.ok [oneRowImgA, oneRowImgB]) (Except.error 7)
      = Except.ok ([oneRowImgA, oneRowImgB].map (fun _ => Comparison.Different fullPage))
    ∧ findMinSimilarity oneRowImgA ([] : List Img) = PageSimilarity.Different
    ∧ Comparison.from_similarity PageSimilarity.Different none none
      = Comparison.Different fullPage
    ∧ fullPage.segments ≠ [] :=
  ⟨compare_pdfs_degrade.1 [oneRowImgA, oneRowImgB] 7,
   (compare_pdfs_degrade.2.1 oneRowImgA []).mp (Or.inl rfl),
   compare_pdfs_degrade.2.2.1 none none,
   compare_pdfs_degrade.2.2.2⟩

/-- C2 witness: on the one-page comparable baseline `[oneRowImgB]` the
matcher returns the argmin index with its count. -/
theorem find_min_similarity_first_min_witness :
    ∃ i n, ∃ hi : i < [oneRowImgB].length,
      findMinSimilarity oneRowImgA [oneRowImgB] = PageSimilarity.Similar i n
      ∧ compareImages oneRowImgA ([oneRowImgB].get ⟨i, hi⟩) = Similiarity.Similar n
      ∧ (∀ j, (hj : j < [oneRowImgB].length) →
          Similiarity.cmp (Similiarity.Similar n)
            (compareImages oneRowImgA ([oneRowImgB].get ⟨j, hj⟩)) ≠ .gt)
      ∧ (∀ j, (hj : j < [oneRowImgB].length) → j < i →
          Similiarity.cmp (compareImages oneRowImgA ([oneRowImgB].get ⟨j, hj⟩))
            (Similiarity.Similar n) = .gt) :=
  find_min_similarity_first_min oneRowImgA [oneRowImgB]
    (by simp) ⟨0, by decide, by decide⟩

/-- C7: in the Update Detector, a file whose baseline counterpart exists
and is a file is flagged iff strictly newer and carrying the `pdf`
extension, while a file whose baseline counterpart is missing is flagged
unconditionally, with no extension check. -/
theorem find_updated_flag_rules
    (name : String) (mt : ℕ) (ext : Option String) (bmt : ℕ) (bext : Option String)
    (base : Option FSNode) (rest : List (String × FSNode))
    (curPath basePath : List String) :
    (lookupChild base name = some (FSNode.file bmt bext) →
      findUpdatedFiles ((name, FSNode.file mt ext) :: rest) base curPath basePath
        = (if bmt < mt ∧ ext = some "pdf"
            then [(curPath ++ [name], basePath ++ [name])] else [])
          ++ findUpdatedFiles rest base curPath basePath)
    ∧ (lookupChild base name = none →
      findUpdatedFiles ((name, FSNode.file mt ext) :: rest) base curPath basePath
        = (curPath ++ [name], basePath ++ [name])
          :: findUpdatedFiles rest base curPath basePath) := by
  constructor <;> intro h <;>
    · conv_lhs => rw [findUpdatedFiles.eq_def]
      simp [h]

/-- C7 witness: one strictly-newer pdf file with a file counterpart, and
one file with a missing counterpart. -/
theorem find_updated_flag_rules_witness :
    (findUpdatedFiles [("a", FSNode.file 2 (some "pdf"))]
        (some (FSNode.dir [("a", FSNode.file 1 (some "pdf"))])) [] []
      = (if 1 < 2 ∧ (some "pdf" : Option String) = some "pdf"
          then [((([] : List String) ++ ["a"]), (([] : List String) ++ ["a"]))]
          else [])
        ++ findUpdatedFiles []
            (some (FSNode.dir [("a", FSNode.file 1 (some "pdf"))])) [] [])
    ∧ (findUpdatedFiles [("b", FSNode.file 2 none)] none [] []
      = ((([] : List String) ++ ["b"]), (([] : List String) ++ ["b"]))
        :: findUpdatedFiles [] none [] []) :=
  ⟨(find_updated_flag_rules "a" 2 (some "pdf") 1 (some "pdf")
      (some (FSNode.dir [("a", FSNode.file 1 (some "pdf"))])) [] [] []).1 rfl,
   (find_updated_flag_rules "b" 2 none 1 none none [] [] []).2 rfl⟩

theorem keys_nodup_unique {α β : Type} {files : List (α × β)}
    (hnodup : (files.map Prod.fst).Nodup) {p q : α × β}
    (hp : p ∈ files) (hq : q ∈ files) (h : p.1 = q.1) : p = q := by
  induction files with
  | nil => cases hp
  | cons f rest ih =>
      rw [List.map_cons, List.nodup_cons] at hnodup
      rw [List.mem_cons] at hp hq
      rcases hp with hp | hp <;> rcases hq with hq | hq
      · rw [hp, hq]
      · exfalso
        apply hnodup.1
        rw [← hp, h]
        exact List.mem_map_of_mem Prod.fst hq
      · exfalso
        apply hnodup.1
        rw [← hq, ← h]
        exact List.mem_map_of_mem Prod.fst hp
      · exact ih hnodup.2 hp hq

theorem generateComparisons_keys
    (compare : String → String → Except PDFComparisonError (List Comparison))
    (files : List (String × String)) :
    ∀ x ∈ generateComparisons compare files, ∃ cl ∈ files, x.1 = cl.1 := by
  intro x hx
  rw [generateComparisons, List.mem_filterMap] at hx
  obtain ⟨cl, hcl, hfx⟩ := hx
  refine ⟨cl, hcl, ?_⟩
  rcases hc : compare cl.1 cl.2 with e | res <;> rw [hc] at hfx
  · simp at hfx
    rw [← hfx]
  · by_cases hany : res.any (fun c =>
        match c with
        | Comparison.Different _ => true
        | Comparison.Identical => false) <;> simp [hany] at hfx
    rw [← hfx]

/-- An all-`Identical` successful comparison is dropped by
`generate_comparisons`. -/
theorem generateComparisons_drops
    (compare : String → String → Except PDFComparisonError (List Comparison))
    (files : List (String × String)) (c l : String)
    (hmem : (c, l) ∈ files)
    (hnodup : (files.map Prod.fst).Nodup)
    (res : List Comparison)
    (hok : compare c l = Except.ok res)
    (hid : ∀ v ∈ res, v = Comparison.Identical) :
    ∀ x ∈ generateComparisons compare files, x.1 ≠ c := by
  intro x hx hxc
  rw [generateComparisons, List.mem_filterMap] at hx
  obtain ⟨cl, hcl, hfx⟩ := hx
  have hclc : cl.1 = c := by
    rcases hc : compare cl.1 cl.2 with e | r <;> rw [hc] at hfx
    · simp at hfx
      rw [← hxc, ← hfx]
    · by_cases hany : r.any (fun v =>
          match v with
          | Comparison.Different _ => true
          | Comparison.Identical => false) <;> simp [hany] at hfx
      rw [← hxc, ← hfx]
  have hcl_eq : cl = (c, l) :=
    keys_nodup_unique hnodup hcl hmem hclc
  subst hcl_eq
  rw [hok] at hfx
  have hany : res.any (fun v =>
      match v with
      | Comparison.Different _ => true
      | Comparison.Identical => false) = false := by
    rw [List.any_eq_false]
    intro v hv
    simp [hid v hv]
  simp [hany] at hfx

theorem generateUpdatedPdfs_keys
    (markDifferences : String → List Comparison → String → Except ℕ Unit)
    (outPathOf : String → String)
    (tasks : List (String × Except FileManagerError (List Comparison))) :
    (∀ x ∈ (generateUpdatedPdfs markDifferences outPathOf tasks).1,
      ∃ t ∈ tasks, x.1 = t.1)
    ∧ (∀ x ∈ (generateUpdatedPdfs markDifferences outPathOf tasks).2,
      ∃ t ∈ tasks, x.1 = t.1) := by
  induction tasks with
  | nil => simp [generateUpdatedPdfs]
  | cons t rest ih =>
      constructor <;> intro x hx <;>
        rcases ht : t.2 with e | comps <;>
          simp only [generateUpdatedPdfs, List.foldr_cons, ht] at hx
      · rw [List.mem_cons] at hx
        rcases hx with hx | hx
        · exact ⟨t, List.mem_cons_self t rest, by rw [hx]⟩
        · obtain ⟨u, hu, hxu⟩ := ih.1 x hx
          exact ⟨u, List.mem_cons_of_mem t hu, hxu⟩
      · rw [List.mem_cons] at hx
        rcases hx with hx | hx
        · exact ⟨t, List.mem_cons_self t rest, by rw [hx]⟩
        · obtain ⟨u, hu, hxu⟩ := ih.1 x hx
          exact ⟨u, List.mem_cons_of_mem t hu, hxu⟩
      · obtain ⟨u, hu, hxu⟩ := ih.2 x hx
        exact ⟨u, List.mem_cons_of_mem t hu, hxu⟩
      · rw [List.mem_cons] at hx
        rcases hx with hx | hx
        · exact ⟨t, List.mem_cons_self t rest, by rw [hx]⟩
        · obtain ⟨u, hu, hxu⟩ := ih.2 x hx
          exact ⟨u, List.mem_cons_of_mem t hu, hxu⟩

theorem updateChangedPdfs_keys
    (createDirAll : String → Except ℕ Unit)
    (copyFile : String → String → Except ℕ Unit)
    (parentOf : String → Option String)
    (associations : String → Option String)
    (updated : List (String × Except FileManagerError String)) :
    (∀ x ∈ (updateChangedPdfs createDirAll copyFile parentOf associations updated).1,
      ∃ t ∈ updated, x.1 = t.1)
    ∧ (∀ x ∈ (updateChangedPdfs createDirAll copyFile parentOf associations updated).2,
      ∃ t ∈ updated, x.1 = t.1) := by
  induction updated with
  | nil => simp [updateChangedPdfs]
  | cons t rest ih =>
      constructor <;> intro x hx <;>
        rcases ht : t.2 with e | diffPath <;>
          rcases ha : associations t.1 with _ | target <;>
            simp only [updateChangedPdfs, List.foldr_cons, ht, ha] at hx
      · rw [List.mem_cons] at hx
        rcases hx with hx | hx
        · exact ⟨t, List.mem_cons_self t rest, by rw [hx]⟩
        · obtain ⟨u, hu, hxu⟩ := ih.1 x hx
          exact ⟨u, List.mem_cons_of_mem t hu, hxu⟩
      · rw [List.mem_cons] at hx
        rcases hx with hx | hx
        · exact ⟨t, List.mem_cons_self t rest, by rw [hx]⟩
        · obtain ⟨u, hu, hxu⟩ := ih.1 x hx
          exact ⟨u, List.mem_cons_of_mem t hu, hxu⟩
      · rw [List.mem_cons] at hx
        rcases hx with hx | hx
        · exact ⟨t, List.mem_cons_self t rest, by rw [hx]⟩
        · obtain ⟨u, hu, hxu⟩ := ih.1 x hx
          exact ⟨u, List.mem_cons_of_mem t hu, hxu⟩
      · rw [List.mem_cons] at hx
        rcases hx with hx | hx
        · exact ⟨t, List.mem_cons_self t rest, by rw [hx]⟩
        · obtain ⟨u, hu, hxu⟩ := ih.1 x hx
          exact ⟨u, List.mem_cons_of_mem t hu, hxu⟩
      · obtain ⟨u, hu, hxu⟩ := ih.2 x hx
        exact ⟨u, List.mem_cons_of_mem t hu, hxu⟩
      · obtain ⟨u, hu, hxu⟩ := ih.2 x hx
        exact ⟨u, List.mem_cons_of_mem t hu, hxu⟩
      · obtain ⟨u, hu, hxu⟩ := ih.2 x hx
        exact ⟨u, List.mem_cons_of_mem t hu, hxu⟩
      · rw [List.mem_cons] at hx
        rcases hx with hx | hx
        · exact ⟨t, List.mem_cons_self t rest, by rw [hx]⟩
        · obtain ⟨u, hu, hxu⟩ := ih.2 x hx
          exact ⟨u, List.mem_cons_of_mem t hu, hxu⟩

/-- C9: a flagged file pair whose document comparison succeeds with every
page `Identical` is silently dropped from the pass: `mark_differences` is
never invoked for it (no annotated output), the revised file is never
copied over its baseline, and it has no entry in the batch outcome map. -/
theorem all_identical_file_dropped
    (compare : String → String → Except PDFComparisonError (List Comparison))
    (markDifferences : String → List Comparison → String → Except ℕ Unit)
    (outPathOf : String → String)
    (createDirAll : String → Except ℕ Unit)
    (copyFile : String → String → Except ℕ Unit)
    (parentOf : String → Option String)
    (files : List (String × String)) (c l : String)
    (hmem : (c, l) ∈ files)
    (hnodup : (files.map Prod.fst).Nodup)
    (res : List Comparison)
    (hok : compare c l = Except.ok res)
    (hid : ∀ v ∈ res, v = Comparison.Identical) :
    (∀ x ∈ (batchPipeline compare markDifferences outPathOf createDirAll
        copyFile parentOf files).1, x.1 ≠ c)
    ∧ (∀ x ∈ (batchPipeline compare markDifferences outPathOf createDirAll
        copyFile parentOf files).2.1, x.1 ≠ c)
    ∧ (∀ x ∈ (batchPipeline compare markDifferences outPathOf createDirAll
        copyFile parentOf files).2.2, x.1 ≠ c) := by
  have hcomps := generateComparisons_drops compare files c l hmem hnodup res hok hid
  have hup := generateUpdatedPdfs_keys markDifferences outPathOf
    (generateComparisons compare files)
  have hpost := updateChangedPdfs_keys createDirAll copyFile parentOf
    (fun p => files.lookup p)
    (generateUpdatedPdfs markDifferences outPathOf
      (generateComparisons compare files)).1
  refine ⟨?_, ?_, ?_⟩
  · intro x hx
    obtain ⟨t, ht, hxt⟩ := hpost.1 x hx
    obtain ⟨u, hu, htu⟩ := hup.1 t ht
    rw [hxt, htu]
    exact hcomps u hu
  · intro x hx
    obtain ⟨u, hu, hxu⟩ := hup.2 x hx
    rw [hxu]
    exact hcomps u hu
  · intro x hx
    obtain ⟨t, ht, hxt⟩ := hpost.2 x hx
    obtain ⟨u, hu, htu⟩ := hup.1 t ht
    rw [hxt, htu]
    exact hcomps u hu

/-- C9 witness: one file pair whose comparison is all-`Identical` leaves
every pipeline output empty of that key. -/
theorem all_identical_file_dropped_witness :
    (∀ x ∈ (batchPipeline (fun _ _ => Except.ok [Comparison.Identical])
        (fun _ _ _ => Except.ok ()) (fun p => p) (fun _ => Except.ok ())
        (fun _ _ => Except.ok ()) (fun _ => none) [("a", "b")]).1, x.1 ≠ "a")
    ∧ (∀ x ∈ (batchPipeline (fun _ _ => Except.ok [Comparison.Identical])
        (fun _ _ _ => Except.ok ()) (fun p => p) (fun _ => Except.ok ())
        (fun _ _ => Except.ok ()) (fun _ => none) [("a", "b")]).2.1, x.1 ≠ "a")
    ∧ (∀ x ∈ (batchPipeline (fun _ _ => Except.ok [Comparison.Identical])
        (fun _ _ _ => Except.ok ()) (fun p => p) (fun _ => Except.ok ())
        (fun _ _ => Except.ok ()) (fun _ => none) [("a", "b")]).2.2, x.1 ≠ "a") :=
  all_identical_file_dropped
    (fun _ _ => Except.ok [Comparison.Identical]) (fun _ _ _ => Except.ok ())
    (fun p => p) (fun _ => Except.ok ()) (fun _ _ => Except.ok ())
    (fun _ => none) [("a", "b")] "a" "b" (by simp) (by simp)
    [Comparison.Identical] rfl (by simp)

/-- C10: for every file whose annotated output was produced, the revised
file is copied over its associated baseline path (with `create_dir_all` on
that path's parent); the outcome is the annotated output path only if
directory creation and copy succeed, and the IO error otherwise. -/
theorem update_changed_copies_back
    (createDirAll : String → Except ℕ Unit)
    (copyFile : String → String → Except ℕ Unit)
    (parentOf : String → Option String)
    (associations : String → Option String)
    (p d t : String) (rest : List (String × Except FileManagerError String))
    (hassoc : associations p = some t) :
    ((p, t) ∈ (updateChangedPdfs createDirAll copyFile parentOf associations
        ((p, Except.ok d) :: rest)).2)
    ∧ (∃ oc,
        (updateChangedPdfs createDirAll copyFile parentOf associations
            ((p, Except.ok d) :: rest)).1
          = (p, oc)
            :: (updateChangedPdfs createDirAll copyFile parentOf associations rest).1
        ∧ (oc = Except.ok d ↔
            (∀ par, parentOf t = some par → createDirAll par = Except.ok ())
            ∧ copyFile p t = Except.ok ())
        ∧ (∀ par e, parentOf t = some par → createDirAll par = Except.error e →
            oc = Except.error (FileManagerError.ioError e))
        ∧ ((∀ par, parentOf t = some par → createDirAll par = Except.ok ()) →
            ∀ e, copyFile p t = Except.error e →
            oc = Except.error (FileManagerError.ioError e))) := by
  have hstep :
      updateChangedPdfs createDirAll copyFile parentOf associations
          ((p, Except.ok d) :: rest)
        = ((p, match (parentOf t).map createDirAll, copyFile p t with
              | some (.error e), _ => Except.error (FileManagerError.ioError e)
              | _, .ok _ => Except.ok d
              | _, .error e => Except.error (FileManagerError.ioError e))
            :: (updateChangedPdfs createDirAll copyFile parentOf associations rest).1,
           (p, t)
            :: (updateChangedPdfs createDirAll copyFile parentOf associations rest).2) := by
    simp only [updateChangedPdfs, List.foldr_cons, hassoc]
  rw [hstep]
  refine ⟨List.mem_cons_self _ _, _, rfl, ?_, ?_, ?_⟩
  · constructor
    · intro hoc
      constructor
      · intro par h
        rcases hcd : createDirAll par with e' | u'
        · rw [h] at hoc
          simp only [Option.map_some'] at hoc
          rw [hcd] at hoc
          simp at hoc
        · rfl
      · rcases hcp : copyFile p t with e | u
        · rcases hpt : parentOf t with _ | par
          · rw [hpt, hcp] at hoc
            simp at hoc
          · rcases hcd : createDirAll par with e' | u' <;>
              · rw [hpt] at hoc
                simp only [Option.map_some'] at hoc
                rw [hcd, hcp] at hoc
                simp at hoc
        · rfl
    · rintro ⟨hmk, hcp⟩
      rcases hpt : parentOf t with _ | par
      · simp only [Option.map_none']
        rw [hcp]
      · have hcd := hmk par hpt
        simp only [Option.map_some']
        rw [hcd, hcp]
  · intro par e hpar hcd
    rw [hpar]
    simp only [Option.map_some']
    rw [hcd]
    rcases hcp : copyFile p t with e2 | u <;> rfl
  · intro hmk e hcp
    rcases hpt : parentOf t with _ | par
    · simp only [Option.map_none']
      rw [hcp]
    · have hcd := hmk par hpt
      simp only [Option.map_some']
      rw [hcd, hcp]

/-- C10 witness: a concrete successfully annotated file is copied over its
baseline and its outcome characterized. -/
theorem update_changed_copies_back_witness :
    (("cur", "base") ∈ (updateChangedPdfs (fun _ => (Except.ok () : Except ℕ Unit))
        (fun _ _ => (Except.ok () : Except ℕ Unit)) (fun _ => some "dir")
        (fun _ => some "base") (("cur", Except.ok "out") :: [])).2)
    ∧ (∃ oc,
        (updateChangedPdfs (fun _ => (Except.ok () : Except ℕ Unit))
            (fun _ _ => (Except.ok () : Except ℕ Unit)) (fun _ => some "dir")
            (fun _ => some "base") (("cur", Except.ok "out") :: [])).1
          = ("cur", oc)
            :: (updateChangedPdfs (fun _ => (Except.ok () : Except ℕ Unit))
                (fun _ _ => (Except.ok () : Except ℕ Unit)) (fun _ => some "dir")
                (fun _ => some "base") []).1
        ∧ (oc = Except.ok "out" ↔
            (∀ par, (some "dir" : Option String) = some par →
              (fun (_ : String) => (Except.ok () : Except ℕ Unit)) par = Except.ok ())
            ∧ ((Except.ok () : Except ℕ Unit) = Except.ok ()))
        ∧ (∀ par e, (some "dir" : Option String) = some par →
            (fun (_ : String) => (Except.ok () : Except ℕ Unit)) par = Except.error e →
            oc = Except.error (FileManagerError.ioError e))
        ∧ ((∀ par, (some "dir" : Option String) = some par →
              (fun (_ : String) => (Except.ok () : Except ℕ Unit)) par = Except.ok ()) →
            ∀ e, (Except.ok () : Except ℕ Unit) = Except.error e →
            oc = Except.error (FileManagerError.ioError e))) :=
  update_changed_copies_back (fun _ => (Except.ok () : Except ℕ Unit))
    (fun _ _ => (Except.ok () : Except ℕ Unit)) (fun _ => some "dir")
    (fun _ => some "base") "cur" "out" "base" [] rfl
